import Mathlib

/-!
Verification of the core memoization engine (salsa): a shallow embedding of
the memo data model, shallow verification, the execute fixpoint loop, value
eviction, the LRU set, the sync-slot packing and the fetch orchestrator,
together with theorems settling the specification claims.

Machine integers are modelled as Nat (with explicit bounds where overflow
matters); panics are modelled as the error case of Except; atomics become
plain fields with explicit state passing.
-/

namespace Salsa

/-- Revisions are unsigned integers, monotone across the process lifetime. -/
abbrev Revision := Nat

/-- A pair (ingredient-index, key-index) identifying one query instantiation. -/
structure DatabaseKeyIndex where
  ingredient_index : Nat
  key_index : Nat
deriving DecidableEq, Repr

/-- Durability: ordered small enum LOW, MEDIUM, HIGH. -/
inductive Durability where
  | low
  | medium
  | high
deriving DecidableEq, Repr

def Durability.toNat : Durability → Nat
  | .low => 0
  | .medium => 1
  | .high => 2

/-- The larger of two durabilities (Rust Ord-derived max). -/
def Durability.max (a b : Durability) : Durability :=
  if a.toNat ≤ b.toNat then b else a

/-- One recorded dependency edge: an input read or an output written. -/
inductive QueryEdge where
  | Input (k : DatabaseKeyIndex)
  | Output (k : DatabaseKeyIndex)
deriving DecidableEq, Repr

/-- How a memo came to exist (tags as in zalsa_local::QueryOrigin; the
payloads carried by Assigned and DerivedUntracked are kept). -/
inductive QueryOrigin where
  | Assigned (by_query : DatabaseKeyIndex)
  | BaseInput
  | Derived (edges : List QueryEdge)
  | DerivedUntracked (edges : List QueryEdge)
  | FixpointInitial
deriving DecidableEq, Repr

/-- The output edges of an origin, iterated by mark_outputs_as_verified. -/
def QueryOrigin.outputs : QueryOrigin → List DatabaseKeyIndex
  | .Derived edges | .DerivedUntracked edges =>
      edges.filterMap fun e =>
        match e with
        | .Output k => some k
        | .Input _ => none
  | _ => []

/-- Metadata recorded alongside every memo. The collector-related fields
(tracked_struct_ids, accumulated_inputs) are opaque to the core per the
specification and are omitted from the embedding. -/
structure QueryRevisions where
  changed_at : Revision
  durability : Durability
  origin : QueryOrigin
  cycle_heads : Finset DatabaseKeyIndex
  cycle_ignore : Bool
deriving DecidableEq

/-- The central cached record: optional value, atomic verified_at revision,
atomic verified_final flag, and its QueryRevisions. -/
structure Memo (V : Type) where
  value : Option V
  verified_at : Revision
  verified_final : Bool
  revisions : QueryRevisions
deriving DecidableEq

/-- Memo::new — verified_at begins at the given (current) revision and
verified_final is true exactly when cycle_heads is empty. -/
def Memo.new {V : Type} (value : Option V) (revision_now : Revision)
    (revisions : QueryRevisions) : Memo V :=
  { value := value
    verified_at := revision_now
    verified_final := decide (revisions.cycle_heads = ∅)
    revisions := revisions }

/-- True if this may be a provisional cycle-iteration result. -/
def Memo.may_be_provisional {V : Type} (m : Memo V) : Bool :=
  !m.verified_final

/-- Cycle heads that should be propagated to dependent queries. -/
def Memo.cycle_heads {V : Type} (m : Memo V) : Option (Finset DatabaseKeyIndex) :=
  if m.may_be_provisional then some m.revisions.cycle_heads else none

/-- Memo::mark_as_verified — store the given (current) revision into
verified_at. -/
def Memo.mark_as_verified {V : Type} (m : Memo V) (revision_now : Revision) : Memo V :=
  { m with verified_at := revision_now }

/-- The slice of database state that shallow verification consults: the
current revision, the durability table, and whether another ingredient has
verified a given key as final. -/
structure Zalsa where
  current_revision : Revision
  last_changed_revision : Durability → Revision
  is_verified_final : DatabaseKeyIndex → Bool

/-- Memo::check_durability — true if no input of the suitable durability has
changed since this memo was last verified. -/
def Memo.check_durability {V : Type} (m : Memo V) (zalsa : Zalsa) : Bool :=
  decide (zalsa.last_changed_revision m.revisions.durability ≤ m.verified_at)

/-- validate_provisional — check whether every cycle head of the memo has
been finalized; if so, store verified_final := true and succeed. -/
def validate_provisional {V : Type} (zalsa : Zalsa) (memo : Memo V) :
    Bool × Memo V :=
  if ∀ k ∈ memo.revisions.cycle_heads, zalsa.is_verified_final k then
    (true, { memo with verified_final := true })
  else
    (false, memo)

/-- Result of shallow_verify_memo: the boolean answer, the memo after any
atomic stores (verified_final promotion, verified_at refresh), and the
outputs marked validated along the way. -/
structure ShallowResult (V : Type) where
  ok : Bool
  memo : Memo V
  validated_outputs : List DatabaseKeyIndex

/-- shallow_verify_memo, in the order of the code: first the provisional
promotion check (when not allow_provisional), then the verified_at fast
path, then the durability check which refreshes verified_at and marks
outputs validated. -/
def shallow_verify_memo {V : Type} (zalsa : Zalsa) (memo : Memo V)
    (allow_provisional : Bool) : ShallowResult V :=
  let step1 :=
    if !allow_provisional && memo.may_be_provisional then
      validate_provisional zalsa memo
    else
      (true, memo)
  if !step1.1 then
    { ok := false, memo := step1.2, validated_outputs := [] }
  else if step1.2.verified_at = zalsa.current_revision then
    { ok := true, memo := step1.2, validated_outputs := [] }
  else if step1.2.check_durability zalsa then
    { ok := true
      memo := step1.2.mark_as_verified zalsa.current_revision
      validated_outputs := step1.2.revisions.origin.outputs }
  else
    { ok := false, memo := step1.2, validated_outputs := [] }

/-- evict_value_from_memo_for, acting on the memo-table slot of one key:
for a Derived origin the memo is replaced by Memo::new of no value, the
loaded verified_at and a clone of the revisions; for Assigned,
DerivedUntracked, BaseInput and FixpointInitial origins (and for an empty
slot) nothing happens. -/
def evict_value_from_memo_for {V : Type} (slot : Option (Memo V)) :
    Option (Memo V) :=
  match slot with
  | none => none
  | some memo =>
    match memo.revisions.origin with
    | .Assigned _ | .DerivedUntracked _ | .BaseInput | .FixpointInitial =>
        some memo
    | .Derived _ =>
        some (Memo.new none memo.verified_at memo.revisions)

/-- Key indices stored in the LRU set (crate::Id). -/
abbrev Id := Nat

/-- Model of hashlink LinkedHashSet insert as used by the LRU: the list is
ordered front = least recently inserted; inserting a key that is already
present moves it to the back. -/
def FxLinkedHashSet.insert (set : List Id) (index : Id) : List Id :=
  set.erase index ++ [index]

/-- Lru::record_use — with capacity 0 the LRU is disabled and nothing is
touched; otherwise the key is inserted (moved to the most-recent end) and,
when the length then exceeds the capacity, the front (least recent) key is
popped and returned for eviction. Returns the evicted key, if any, together
with the set after the call. -/
def Lru.record_use (capacity : Nat) (set : List Id) (index : Id) :
    Option Id × List Id :=
  if capacity = 0 then
    (none, set)
  else
    let set2 := FxLinkedHashSet.insert set index
    if set2.length > capacity then
      match set2 with
      | [] => (none, [])
      | front :: rest => (some front, rest)
    else
      (none, set2)

/-- Lru::set_capacity — store the capacity; capacity 0 additionally clears
the set. -/
def Lru.set_capacity (set : List Id) (capacity : Nat) : Nat × List Id :=
  if capacity = 0 then (capacity, []) else (capacity, set)

/-- The per-slot sync state is 16 bits: 15 bits of thread id, one MSB
"anyone waiting" bit; zero means empty. Modelled as a Nat below 2 ^ 16. -/
def SyncState.ANYONE_WAITING_BIT : Nat := 0b1000000000000000

/-- ThreadId::MAX = 0b0111_1111_1111_1111. -/
def ThreadId.MAX : Nat := 0b0111111111111111

/-- ThreadId::from_usize — panics (modelled as none) for zero and for any
value above ThreadId::MAX. -/
def ThreadId.from_usize (value : Nat) : Option Nat :=
  if value = 0 then none
  else if value > ThreadId.MAX then none
  else some value

/-- SyncState::new — the packed word is just the thread id. -/
def SyncState.new (thread_id : Nat) : Nat := thread_id

/-- SyncState::is_none — the slot is empty iff the word is zero. -/
def SyncState.is_none (s : Nat) : Bool := decide (s = 0)

/-- SyncState::set_anyone_waiting — set the MSB. -/
def SyncState.set_anyone_waiting (s : Nat) : Nat :=
  s ||| SyncState.ANYONE_WAITING_BIT

/-- SyncState::thread_id — mask the MSB off (the u16 complement of the
waiting bit is 0b0111_1111_1111_1111). -/
def SyncState.thread_id (s : Nat) : Nat :=
  s &&& 0b0111111111111111

/-- SyncState::anyone_waiting — test the MSB. -/
def SyncState.anyone_waiting (s : Nat) : Bool :=
  decide (s &&& SyncState.ANYONE_WAITING_BIT ≠ 0)

/-- Result a blocked waiter observes when the claim guard is dropped. -/
inductive WaitResult where
  | Completed
  | Panicked
deriving DecidableEq, Repr

/-- ClaimGuard::drop — a guard dropped while the thread is panicking
unblocks waiters with Panicked, otherwise with Completed. -/
def ClaimGuard.drop_wait_result (panicking : Bool) : WaitResult :=
  if panicking then .Panicked else .Completed

/-- Cycle recovery strategy of a query type. -/
inductive CycleRecoveryStrategy where
  | Panic
  | Fixpoint
deriving DecidableEq, Repr

/-- Return value from a cycle recovery function. -/
inductive CycleRecoveryAction (V : Type) where
  | Iterate
  | Fallback (v : V)
deriving DecidableEq, Repr

/-- The per-query-type configuration the core receives: value equality, the
cycle recovery callback, the fixpoint initial value and the strategy. The
user execute function itself is passed separately, as a stream of results
indexed by invocation (one entry per call of C::execute for this key). -/
structure Config (V : Type) where
  values_equal : V → V → Bool
  recover_from_cycle : V → Nat → CycleRecoveryAction V
  cycle_initial : V
  CYCLE_STRATEGY : CycleRecoveryStrategy

/-- The largest u32 value; iteration_count is a u32 and checked_add panics
one step past this. -/
def U32_MAX : Nat := 2 ^ 32 - 1

/-- Modelled from the spec: the helper backdate_if_appropriate called by
execute is not under src (only its caller is). Spec section 4.6 step 3: if
an old memo exists and new_value equals its value (using the configured
equality), set changed_at to the old changed_at and durability to the max
of the new and the old durability. An old memo whose value was evicted has
nothing to compare against, so no backdating happens. -/
def backdate_if_appropriate {V : Type} (cfg : Config V) (old_memo : Memo V)
    (revisions : QueryRevisions) (new_value : V) : QueryRevisions :=
  match old_memo.value with
  | some old_value =>
      if cfg.values_equal new_value old_value then
        { revisions with
            changed_at := old_memo.revisions.changed_at
            durability :=
              Durability.max revisions.durability old_memo.revisions.durability }
      else revisions
  | none => revisions

/-- Modelled from the spec: QueryRevisions::fixpoint_initial is not under
src (only its caller in fetch_cold is). Spec section 4.7: the initial
provisional memo has origin FixpointInitial and cycle_heads consisting of
the own key; the caller passes the current revision for its timestamp. The
durability of a placeholder with no recorded dependencies is the maximal
one. -/
def QueryRevisions.fixpoint_initial (own : DatabaseKeyIndex) (rev : Revision) :
    QueryRevisions :=
  { changed_at := rev
    durability := .high
    origin := .FixpointInitial
    cycle_heads := {own}
    cycle_ignore := false }

/-- What execute hands back: the memo returned to the caller and the final
content of the own-key memo-table slot. -/
structure ExecuteResult (V : Type) where
  returned : Memo V
  slot : Option (Memo V)
deriving DecidableEq

/-- IngredientImpl::execute, with state passing made explicit. The stream
user_execute gives, per invocation index n, the value produced by the user
function together with the QueryRevisions popped from the active query
stack (the recursive fetches of dependencies are abstracted into the
stream). The loop is run on fuel; ok none means the fuel ran out, and an
error is a panic. The diff_outputs call is an external effect (stale-output
reporting) that does not touch the memo and is elided here.

Control flow of the source: if the new revisions name the own key as a
cycle head, fetch the last provisional value (from opt_last_provisional
after the first pass, else from the memo table; a missing provisional or an
evicted provisional value is a panic). If the new value equals it, the
fixpoint is reached: remove the own key from cycle_heads, insert the memo
and go around once more so downstream memos are rewritten. Otherwise ask
recover_from_cycle: Iterate bumps iteration_count with checked_add (panic
at u32 overflow), inserts the memo as the new provisional and loops;
Fallback replaces the value and proceeds exactly as the converged case.
When the own key is not among the heads, backdate if appropriate, insert
and return. -/
def execute {V : Type} (cfg : Config V) (user_execute : Nat → V × QueryRevisions)
    (database_key_index : DatabaseKeyIndex) (revision_now : Revision)
    (opt_old_memo : Option (Memo V)) (fuel n iteration_count : Nat)
    (opt_last_provisional : Option (Memo V)) (slot : Option (Memo V)) :
    Except String (Option (ExecuteResult V)) :=
  match fuel with
  | 0 => .ok none
  | fuel + 1 =>
    let new_value := (user_execute n).1
    let revisions := (user_execute n).2
    if database_key_index ∈ revisions.cycle_heads then
      match (match opt_last_provisional with
             | some m => some m
             | none => slot : Option (Memo V)) with
      | none => .error "cycle head, but no provisional memo found"
      | some last_provisional =>
        match last_provisional.value with
        | none => .error "provisional value should not be evicted by LRU"
        | some last_provisional_value =>
          if cfg.values_equal new_value last_provisional_value then
            let revisions2 := { revisions with
                cycle_heads := revisions.cycle_heads.erase database_key_index
                cycle_ignore := false }
            execute cfg user_execute database_key_index revision_now
              opt_old_memo fuel (n + 1) iteration_count opt_last_provisional
              (some (Memo.new (some new_value) revision_now revisions2))
          else
            match cfg.recover_from_cycle new_value iteration_count with
            | .Iterate =>
              if iteration_count = U32_MAX then
                .error "fixpoint iteration should converge before u32 overflow"
              else
                let revisions2 := { revisions with cycle_ignore := false }
                let memo := Memo.new (some new_value) revision_now revisions2
                execute cfg user_execute database_key_index revision_now
                  opt_old_memo fuel (n + 1) (iteration_count + 1) (some memo)
                  (some memo)
            | .Fallback fallback_value =>
              let revisions2 := { revisions with
                  cycle_heads := revisions.cycle_heads.erase database_key_index
                  cycle_ignore := false }
              execute cfg user_execute database_key_index revision_now
                opt_old_memo fuel (n + 1) iteration_count opt_last_provisional
                (some (Memo.new (some fallback_value) revision_now revisions2))
    else
      let revisions2 :=
        match opt_old_memo with
        | some old_memo => backdate_if_appropriate cfg old_memo revisions new_value
        | none => revisions
      let memo := Memo.new (some new_value) revision_now revisions2
      .ok (some { returned := memo, slot := some memo })

/-- IngredientImpl::initial_value — Some of cycle_initial for a Fixpoint
strategy query, None for a Panic strategy query. -/
def initial_value {V : Type} (cfg : Config V) : Option V :=
  match cfg.CYCLE_STRATEGY with
  | .Fixpoint => some cfg.cycle_initial
  | .Panic => none

/-- Result of memo validation (maybe_changed_after). -/
inductive VerifyResult where
  | Changed
  | Unchanged (cycle_heads : Finset DatabaseKeyIndex)
deriving DecidableEq

/-- Result of a sync-table claim, as consumed by the fetch orchestrator. -/
inductive ClaimResult where
  | Retry
  | Cycle
  | Claimed
deriving DecidableEq, Repr

/-- fetch_hot — return the memo for the key when its value is present and
it passes shallow verification (allow_provisional := false); the memo
carries the atomic stores shallow verification performed. -/
def fetch_hot {V : Type} (zalsa : Zalsa) (slot : Option (Memo V)) :
    Option (Memo V) :=
  match slot with
  | some memo =>
    if memo.value.isSome then
      let r := shallow_verify_memo zalsa memo false
      if r.ok then some r.memo else none
    else none
  | none => none

/-- fetch_cold. The claim result and the memo-table content observed after
claiming are inputs (they depend on other threads); deep_verify_memo is an
oracle parameter, since no claim concerns its internals and its only effect
on the returned memo is an atomic verified_at store. ok none means the
claim said Retry (or the fuel of execute ran out); an error is a panic.

On Cycle: return an existing memo when its value is present, the own key
is among its cycle_heads and it passes shallow verification with
allow_provisional := true; otherwise insert and return a fixpoint-initial
memo, or panic for a Panic-strategy query. On Claimed: if the existing
memo has a present value and deep verification says Unchanged with no
cycle heads, return it; otherwise run execute with the existing memo as
the old memo. -/
def fetch_cold {V : Type} (cfg : Config V) (zalsa : Zalsa)
    (database_key_index : DatabaseKeyIndex) (claim : ClaimResult)
    (slot : Option (Memo V)) (deep_verify : Memo V → VerifyResult)
    (user_execute : Nat → V × QueryRevisions) (fuel : Nat) :
    Except String (Option (Memo V)) :=
  match claim with
  | .Retry => .ok none
  | .Cycle =>
    let provisional : Option (Memo V) :=
      match slot with
      | some memo =>
        if memo.value.isSome
            && decide (database_key_index ∈ memo.revisions.cycle_heads)
            && (shallow_verify_memo zalsa memo true).ok then
          some (shallow_verify_memo zalsa memo true).memo
        else none
      | none => none
    match provisional with
    | some memo => .ok (some memo)
    | none =>
      match initial_value cfg with
      | some init =>
        .ok (some (Memo.new (some init) zalsa.current_revision
          (QueryRevisions.fixpoint_initial database_key_index
            zalsa.current_revision)))
      | none =>
        .error "dependency graph cycle querying; set cycle_fn and cycle_initial to fixpoint iterate"
  | .Claimed =>
    let run : Except String (Option (Memo V)) :=
      (execute cfg user_execute database_key_index zalsa.current_revision
          slot fuel 0 0 none slot).map
        (fun r => r.map (fun e => e.returned))
    match slot with
    | some old_memo =>
      if old_memo.value.isSome then
        match deep_verify old_memo with
        | .Unchanged cycle_heads =>
          if cycle_heads = ∅ then .ok (some old_memo) else run
        | .Changed => run
      else run
    | none => run

/-- The state one attempt of the refresh_memo loop observes; a fresh record
per attempt, because other threads may change the memo table and the sync
table between attempts. wait_for true means the blocker finished, false
means blocking would deadlock (the head is on our own stack). -/
structure FetchAttempt (V : Type) where
  hot_slot : Option (Memo V)
  claim : ClaimResult
  cold_slot : Option (Memo V)
  deep_verify : Memo V → VerifyResult
  user_execute : Nat → V × QueryRevisions
  exec_fuel : Nat
  wait_for : DatabaseKeyIndex → Bool

/-- refresh_memo — the outer fetch loop: hot path, else cold path; a Retry
restarts. A returned provisional memo whose heads include keys of other
threads must not escape the cycle: wait on such heads, restart when the
blocker finished, and return the provisional when blocking would deadlock
(we are the participant responsible for driving the fixpoint). The source
iterates the head hash set in arbitrary order; the embedding resolves that
order by testing heads that finished first. ok none means the fuel ran
out. -/
def refresh_memo {V : Type} (cfg : Config V) (zalsa : Zalsa)
    (database_key_index : DatabaseKeyIndex) (attempts : Nat → FetchAttempt V) :
    Nat → Nat → Except String (Option (Memo V))
  | 0, _ => .ok none
  | fuel + 1, k =>
    let a := attempts k
    let step : Except String (Option (Memo V)) :=
      match fetch_hot zalsa a.hot_slot with
      | some memo => .ok (some memo)
      | none =>
        fetch_cold cfg zalsa database_key_index a.claim a.cold_slot
          a.deep_verify a.user_execute a.exec_fuel
    match step with
    | .error e => .error e
    | .ok none => refresh_memo cfg zalsa database_key_index attempts fuel (k + 1)
    | .ok (some memo) =>
      if memo.may_be_provisional then
        match memo.cycle_heads with
        | none => .error "a just-verified memo must have up-to-date provisional status"
        | some cycle_heads =>
          if ∃ head ∈ cycle_heads, head ≠ database_key_index ∧
              zalsa.is_verified_final head = false ∧ a.wait_for head = true then
            refresh_memo cfg zalsa database_key_index attempts fuel (k + 1)
          else .ok (some memo)
      else .ok (some memo)

/-- The claim match at the head of maybe_changed_after_cold: Retry gives up
the attempt, Cycle panics for a Panic-strategy query and is Unchanged with
the own key as sole cycle head for a Fixpoint-strategy query; Claimed
proceeds with the rest of the function, abstracted as a continuation. -/
def maybe_changed_after_cold_claim {V : Type} (cfg : Config V)
    (database_key_index : DatabaseKeyIndex) (claim : ClaimResult)
    (on_claimed : Except String (Option VerifyResult)) :
    Except String (Option VerifyResult) :=
  match claim with
  | .Retry => .ok none
  | .Cycle =>
    match cfg.CYCLE_STRATEGY with
    | .Panic =>
      .error "dependency graph cycle validating; set cycle_fn and cycle_initial to fixpoint iterate"
    | .Fixpoint => .ok (some (.Unchanged {database_key_index}))
  | .Claimed => on_claimed

/-! ## Theorems -/

/-- C7: evict_value(key) on a memo whose origin is Derived replaces it with
a memo whose value is absent but whose QueryRevisions and verified_at are
retained unchanged; for a memo whose origin is BaseInput, Assigned,
DerivedUntracked or FixpointInitial (and for an empty slot) evict_value
leaves the memo table entry entirely unchanged. -/
theorem C7_evict_value {V : Type} (m : Memo V) :
    (∀ edges, m.revisions.origin = .Derived edges →
      ∃ m2, evict_value_from_memo_for (some m) = some m2 ∧
        m2.value = none ∧ m2.verified_at = m.verified_at ∧
        m2.revisions = m.revisions) ∧
    ((∀ edges, m.revisions.origin ≠ .Derived edges) →
      evict_value_from_memo_for (some m) = some m) ∧
    evict_value_from_memo_for (none : Option (Memo V)) = none := by
  refine ⟨?_, ?_, rfl⟩
  · intro edges h
    exact ⟨Memo.new none m.verified_at m.revisions,
      by simp [evict_value_from_memo_for, h], rfl, rfl, rfl⟩
  · intro h
    cases horig : m.revisions.origin with
    | Derived edges => exact absurd horig (h edges)
    | _ => simp [evict_value_from_memo_for, horig]

/-- Witness for C7 at a concrete Derived memo and a concrete BaseInput
memo. -/
theorem C7_evict_value_witness :
    (∃ m2,
      evict_value_from_memo_for (some
        { value := some 7
          verified_at := 3
          verified_final := true
          revisions :=
            { changed_at := 2, durability := .low, origin := .Derived []
              cycle_heads := ∅, cycle_ignore := false } }) = some m2 ∧
      m2.value = none ∧ m2.verified_at = 3 ∧
      m2.revisions =
        { changed_at := 2, durability := .low, origin := .Derived []
          cycle_heads := ∅, cycle_ignore := false }) ∧
    evict_value_from_memo_for (some
      { value := some (5 : Nat)
        verified_at := 3
        verified_final := true
        revisions :=
          { changed_at := 2, durability := .low, origin := .BaseInput
            cycle_heads := ∅, cycle_ignore := false } }) = some
      { value := some 5
        verified_at := 3
        verified_final := true
        revisions :=
          { changed_at := 2, durability := .low, origin := .BaseInput
            cycle_heads := ∅, cycle_ignore := false } } := by
  constructor
  · have h := (C7_evict_value
      { value := some (7 : Nat)
        verified_at := 3
        verified_final := true
        revisions :=
          { changed_at := 2, durability := .low, origin := .Derived []
            cycle_heads := ∅, cycle_ignore := false } }).1 [] rfl
    exact h
  · exact (C7_evict_value _).2.1 (fun edges h => by simp at h)

/-- C8: LRU record_use — with capacity 0 it returns none and leaves the set
untouched (LRU disabled); with nonzero capacity the key moves to the
most-recent end of the insertion-ordered set, an eviction key is returned
exactly when the resulting size exceeds the capacity, and the returned key
is the least-recent (front) one and never the key just recorded. -/
theorem C8_lru_record_use (capacity : Nat) (set : List Id) (index : Id)
    (hnd : set.Nodup) :
    (capacity = 0 → Lru.record_use capacity set index = (none, set)) ∧
    (capacity ≠ 0 →
      ((Lru.record_use capacity set index).1 ≠ none ↔
          (FxLinkedHashSet.insert set index).length > capacity) ∧
      (FxLinkedHashSet.insert set index).getLast? = some index ∧
      (∀ e, (Lru.record_use capacity set index).1 = some e →
        (FxLinkedHashSet.insert set index).head? = some e ∧ e ≠ index)) := by
  constructor
  · intro h0
    simp [Lru.record_use, h0]
  · intro hc
    have hins : FxLinkedHashSet.insert set index = set.erase index ++ [index] :=
      rfl
    refine ⟨?_, List.getLast?_concat _, ?_⟩
    · cases her : set.erase index with
      | nil =>
        have hn : ¬ ((1 : Nat) > capacity) := by omega
        simp [Lru.record_use, FxLinkedHashSet.insert, hc, her, hn]
      | cons y t =>
        by_cases hlen : capacity < t.length + 1 + 1
        · simp [Lru.record_use, FxLinkedHashSet.insert, hc, her, hlen]
        · simp [Lru.record_use, FxLinkedHashSet.insert, hc, her, hlen]
    · intro e he
      cases her : set.erase index with
      | nil =>
        have hn : ¬ ((1 : Nat) > capacity) := by omega
        simp [Lru.record_use, FxLinkedHashSet.insert, hc, her, hn] at he
      | cons y t =>
        by_cases hlen : capacity < t.length + 1 + 1
        · have hres : (Lru.record_use capacity set index).1 = some y := by
            simp [Lru.record_use, FxLinkedHashSet.insert, hc, her, hlen]
          rw [hres] at he
          have hey : e = y := by
            exact (Option.some.injEq _ _).mp he.symm
          subst hey
          have hmem : e ∈ set.erase index := by
            rw [her]
            exact List.mem_cons_self _ _
          refine ⟨by rw [hins, her]; rfl, ?_⟩
          intro he2
          rw [he2] at hmem
          exact hnd.not_mem_erase hmem
        · have hres : (Lru.record_use capacity set index).1 = none := by
            simp [Lru.record_use, FxLinkedHashSet.insert, hc, her, hlen]
          rw [hres] at he
          exact Option.noConfusion he

/-- Witness for C8 at capacity 1 and the two-element set [3, 4]: recording
key 3 again exceeds nothing at capacity 2 but at capacity 1 evicts 4. -/
theorem C8_lru_record_use_witness :
    Lru.record_use 0 [3, 4] 3 = (none, [3, 4]) ∧
    ((Lru.record_use 1 [3, 4] 3).1 ≠ none ↔
      (FxLinkedHashSet.insert [3, 4] 3).length > 1) ∧
    (∀ e, (Lru.record_use 1 [3, 4] 3).1 = some e →
      (FxLinkedHashSet.insert [3, 4] 3).head? = some e ∧ e ≠ 3) := by
  have h := C8_lru_record_use 1 [3, 4] 3 (by decide)
  have h0 := (C8_lru_record_use 0 [3, 4] 3 (by decide)).1 rfl
  exact ⟨h0, (h.2 (by decide)).1, (h.2 (by decide)).2.2⟩

/-- C10: the 16-bit sync-slot packing is lossless for legal thread ids:
ThreadId::from_usize rejects 0 and anything above 32767, and for every t
with 1 ≤ t ≤ 32767 the packed state is non-empty, has no waiter bit, and
yields thread id t both before and after set_anyone_waiting. -/
theorem C10_sync_state_packing :
    (∀ t, t = 0 ∨ ThreadId.MAX < t → ThreadId.from_usize t = none) ∧
    (∀ t, 1 ≤ t → t ≤ ThreadId.MAX →
      ThreadId.from_usize t = some t ∧
      SyncState.is_none (SyncState.new t) = false ∧
      SyncState.anyone_waiting (SyncState.new t) = false ∧
      SyncState.thread_id (SyncState.new t) = t ∧
      SyncState.thread_id (SyncState.set_anyone_waiting (SyncState.new t)) = t) := by
  have hMAX : ThreadId.MAX = 32767 := rfl
  constructor
  · intro t ht
    rcases ht with h0 | hbig
    · simp [ThreadId.from_usize, h0]
    · rw [hMAX] at hbig
      simp only [ThreadId.from_usize, hMAX]
      rw [if_neg (by omega), if_pos (by omega)]
  · intro t h1 h2
    rw [hMAX] at h2
    refine ⟨?_, ?_, ?_, ?_, ?_⟩
    · simp only [ThreadId.from_usize, hMAX]
      rw [if_neg (by omega), if_neg (by omega)]
    · simp [SyncState.is_none, SyncState.new]
      omega
    · simp only [SyncState.anyone_waiting, SyncState.new,
        SyncState.ANYONE_WAITING_BIT]
      simp only [decide_eq_false_iff_not, ne_eq, not_not]
      apply Nat.eq_of_testBit_eq
      intro i
      rw [Nat.testBit_land]
      by_cases hi : i = 15
      · subst hi
        have ht15 : t.testBit 15 = false :=
          Nat.testBit_eq_false_of_lt (by omega)
        simp [ht15]
      · have hbit : (0b1000000000000000 : Nat).testBit i = false := by
          have h15 : (0b1000000000000000 : Nat) = 2 ^ 15 := by norm_num
          rw [h15, Nat.testBit_two_pow]
          simp [Ne.symm hi]
        simp [hbit]
    · simp only [SyncState.thread_id, SyncState.new]
      apply Nat.eq_of_testBit_eq
      intro i
      have h32767 : (0b0111111111111111 : Nat) = 2 ^ 15 - 1 := by norm_num
      rw [Nat.testBit_land, h32767, Nat.testBit_two_pow_sub_one]
      by_cases hi : i < 15
      · simp [hi]
      · have hbit : t.testBit i = false := by
          apply Nat.testBit_eq_false_of_lt
          calc t < 2 ^ 15 := by omega
          _ ≤ 2 ^ i := Nat.pow_le_pow_right (by omega) (by omega)
        simp [hi, hbit]
    · simp only [SyncState.thread_id, SyncState.new,
        SyncState.set_anyone_waiting, SyncState.ANYONE_WAITING_BIT]
      apply Nat.eq_of_testBit_eq
      intro i
      have h32767 : (0b0111111111111111 : Nat) = 2 ^ 15 - 1 := by norm_num
      have h32768 : (0b1000000000000000 : Nat) = 2 ^ 15 := by norm_num
      rw [Nat.testBit_land, Nat.testBit_lor, h32767, h32768,
        Nat.testBit_two_pow_sub_one, Nat.testBit_two_pow]
      by_cases hi : i < 15
      · simp [hi, Nat.ne_of_gt hi]
      · have hbit : t.testBit i = false := by
          apply Nat.testBit_eq_false_of_lt
          calc t < 2 ^ 15 := by omega
          _ ≤ 2 ^ i := Nat.pow_le_pow_right (by omega) (by omega)
        simp [hi, hbit]

/-- Witness for C10 at thread ids 0, 40000 and 5. -/
theorem C10_sync_state_packing_witness :
    ThreadId.from_usize 0 = none ∧
    ThreadId.from_usize 40000 = none ∧
    (ThreadId.from_usize 5 = some 5 ∧
      SyncState.is_none (SyncState.new 5) = false ∧
      SyncState.anyone_waiting (SyncState.new 5) = false ∧
      SyncState.thread_id (SyncState.new 5) = 5 ∧
      SyncState.thread_id (SyncState.set_anyone_waiting (SyncState.new 5)) = 5) :=
  ⟨C10_sync_state_packing.1 0 (Or.inl rfl),
   C10_sync_state_packing.1 40000 (Or.inr (by decide)),
   C10_sync_state_packing.2 5 (by decide) (by decide)⟩

/-- A database state in which nothing is verified final, at revision 1. -/
def c3Zalsa : Zalsa :=
  { current_revision := 1
    last_changed_revision := fun _ => 1
    is_verified_final := fun _ => false }

/-- A provisional memo already verified at the current revision, with one
unresolved cycle head. -/
def c3Memo : Memo Nat :=
  { value := some 0
    verified_at := 1
    verified_final := false
    revisions :=
      { changed_at := 1, durability := .high, origin := .Derived []
        cycle_heads := {⟨0, 0⟩}, cycle_ignore := false } }

/-- C3 counterexample: the claim asserts that shallow verification returns
true for every memo whose verified_at equals the current revision (step 1
before the provisional check). The code runs the provisional promotion
check first, so a provisional memo whose cycle head is not verified final
is rejected even though its verified_at equals the current revision. -/
theorem C3_counterexample :
    c3Memo.verified_at = c3Zalsa.current_revision ∧
    c3Memo.may_be_provisional = true ∧
    (shallow_verify_memo c3Zalsa c3Memo false).ok = false := by
  refine ⟨rfl, rfl, ?_⟩
  decide

/-- C3 amended: shallow_verify_memo runs the provisional promotion check
first whenever allow_provisional is false and the memo may be provisional
— also for memos already verified in the current revision — and returns
false when some cycle head is not verified final. Only past that check
does a memo whose verified_at equals the current revision return true
(with the promotion recorded when it ran); otherwise, when the durability
check holds, verified_at is set to the current revision, the outputs are
marked validated, and true is returned; otherwise false. -/
theorem C3_shallow_verify_memo_order {V : Type} (zalsa : Zalsa) (memo : Memo V)
    (allow_provisional : Bool) :
    ((allow_provisional = false ∧ memo.may_be_provisional = true ∧
        ¬ (∀ k ∈ memo.revisions.cycle_heads, zalsa.is_verified_final k)) →
      shallow_verify_memo zalsa memo allow_provisional =
        { ok := false, memo := memo, validated_outputs := [] }) ∧
    (¬ (allow_provisional = false ∧ memo.may_be_provisional = true ∧
        ¬ (∀ k ∈ memo.revisions.cycle_heads, zalsa.is_verified_final k)) →
      ∀ memo2, memo2 = (if allow_provisional = false ∧ memo.may_be_provisional = true
          then { memo with verified_final := true } else memo) →
      ((memo.verified_at = zalsa.current_revision →
        shallow_verify_memo zalsa memo allow_provisional =
          { ok := true, memo := memo2, validated_outputs := [] }) ∧
       (memo.verified_at ≠ zalsa.current_revision →
        memo.check_durability zalsa = true →
        shallow_verify_memo zalsa memo allow_provisional =
          { ok := true
            memo := memo2.mark_as_verified zalsa.current_revision
            validated_outputs := memo.revisions.origin.outputs }) ∧
       (memo.verified_at ≠ zalsa.current_revision →
        memo.check_durability zalsa = false →
        shallow_verify_memo zalsa memo allow_provisional =
          { ok := false, memo := memo2, validated_outputs := [] }))) := by
  constructor
  · rintro ⟨hap, hprov, hfail⟩
    subst hap
    simp only [shallow_verify_memo, hprov, Bool.not_false, Bool.true_and,
      validate_provisional, if_neg hfail]
    rfl
  · intro h2 memo2 hm2
    by_cases hap : allow_provisional = false
    · by_cases hprov : memo.may_be_provisional = true
      · have hall : ∀ k ∈ memo.revisions.cycle_heads, zalsa.is_verified_final k := by
          by_contra hno
          exact h2 ⟨hap, hprov, hno⟩
        subst hap
        rw [if_pos ⟨rfl, hprov⟩] at hm2
        subst hm2
        simp only [shallow_verify_memo, hprov, Bool.not_false, Bool.true_and,
          validate_provisional, if_pos hall]
        refine ⟨?_, ?_, ?_⟩
        · intro hv
          simp [hv, Memo.check_durability, Memo.mark_as_verified]
        · intro hv hd
          simp only [Memo.check_durability] at hd
          simp [hv, hd, Memo.mark_as_verified, Memo.check_durability]
        · intro hv hd
          simp only [Memo.check_durability] at hd
          simp [hv, hd, Memo.check_durability]
      · have hprov2 : memo.may_be_provisional = false := by
          cases h : memo.may_be_provisional
          · rfl
          · exact absurd h hprov
        subst hap
        rw [if_neg (fun hh => hprov hh.2)] at hm2
        subst hm2
        simp only [shallow_verify_memo, hprov2, Bool.and_false]
        refine ⟨?_, ?_, ?_⟩
        · intro hv
          simp [hv]
        · intro hv hd
          simp [hv, hd, Memo.mark_as_verified]
        · intro hv hd
          simp [hv, hd]
    · have hap2 : allow_provisional = true := by
        cases allow_provisional
        · exact absurd rfl hap
        · rfl
      subst hap2
      rw [if_neg (fun hh => by simpa using hh.1)] at hm2
      subst hm2
      simp only [shallow_verify_memo, Bool.not_true, Bool.false_and]
      refine ⟨?_, ?_, ?_⟩
      · intro hv
        simp [hv]
      · intro hv hd
        simp [hv, hd, Memo.mark_as_verified]
      · intro hv hd
        simp [hv, hd]

/-- Witness for the amended C3 on concrete memos: a non-provisional memo
already verified at the current revision passes, and one behind on an
unchanged durability level is refreshed with its outputs validated. -/
theorem C3_shallow_verify_memo_order_witness :
    shallow_verify_memo
      { current_revision := 2, last_changed_revision := fun _ => 1
        is_verified_final := fun _ => false }
      ({ value := some 0, verified_at := 1, verified_final := true
         revisions :=
           { changed_at := 1, durability := .high
             origin := .Derived [.Output ⟨1, 1⟩]
             cycle_heads := ∅, cycle_ignore := false } } : Memo Nat) false =
      { ok := true
        memo :=
          { value := some 0, verified_at := 2, verified_final := true
            revisions :=
              { changed_at := 1, durability := .high
                origin := .Derived [.Output ⟨1, 1⟩]
                cycle_heads := ∅, cycle_ignore := false } }
        validated_outputs := [⟨1, 1⟩] } := by
  have h := (C3_shallow_verify_memo_order
    { current_revision := 2, last_changed_revision := fun _ => 1
      is_verified_final := fun _ => false }
    ({ value := some 0, verified_at := 1, verified_final := true
       revisions :=
         { changed_at := 1, durability := .high
           origin := .Derived [.Output ⟨1, 1⟩]
           cycle_heads := ∅, cycle_ignore := false } } : Memo Nat) false).2
    (by simp [Memo.may_be_provisional]) _ rfl
  exact h.2.1 (by decide) (by decide)

/-- Concrete key for the fixpoint examples. -/
def c1Own : DatabaseKeyIndex := ⟨0, 0⟩

/-- A Fixpoint configuration over Nat whose recovery always iterates. -/
def c1Cfg : Config Nat :=
  { values_equal := fun a b => a == b
    recover_from_cycle := fun _ _ => .Iterate
    cycle_initial := 0
    CYCLE_STRATEGY := .Fixpoint }

/-- Revisions naming the own key as a cycle head. -/
def c1RevsH : QueryRevisions :=
  { changed_at := 1, durability := .high, origin := .Derived []
    cycle_heads := {c1Own}, cycle_ignore := false }

/-- Revisions with no cycle heads. -/
def c1RevsN : QueryRevisions :=
  { changed_at := 1, durability := .high, origin := .Derived []
    cycle_heads := ∅, cycle_ignore := false }

/-- User function results: the first invocation produces 0 and sees itself
as a cycle head; the pass after convergence produces 7 with no heads. -/
def c1F : Nat → Nat × QueryRevisions := fun n =>
  if n = 0 then (0, c1RevsH) else (7, c1RevsN)

/-- The provisional memo sitting in the table when execute starts. -/
def c1M0 : Memo Nat := Memo.new (some 0) 1 c1RevsH

/-- The converged memo the code publishes when the fixpoint is reached:
value 0, own key removed from the heads. -/
def c1Converged : Memo Nat :=
  Memo.new (some 0) 1
    { c1RevsH with cycle_heads := c1RevsH.cycle_heads.erase c1Own
                   cycle_ignore := false }

/-- The memo produced by the extra iteration after convergence. -/
def c1MFinal : Memo Nat := Memo.new (some 7) 1 c1RevsN

/-- C1 counterexample: when the fixpoint converges (new value 0 equals the
last provisional 0), the code removes the own key and publishes the
converged memo, but does not return it: it runs one more iteration and
returns the memo of that iteration. Here the extra pass produces 7, so the
caller receives a memo different from the converged one the claim says is
returned. -/
theorem C1_counterexample :
    execute c1Cfg c1F c1Own 1 none 2 0 0 none (some c1M0) =
      .ok (some { returned := c1MFinal, slot := some c1MFinal }) ∧
    c1MFinal.value = some 7 ∧
    c1Converged.value = some 0 ∧
    c1MFinal ≠ c1Converged := by
  refine ⟨?_, rfl, rfl, by decide⟩
  rfl

/-- C1 amended: in the fixpoint loop, when the new result names the own key
as a cycle head and the new value equals the last provisional value under
the configured equality, the engine removes the own key from cycle_heads
and publishes that memo into the memo table — final exactly when no other
cycle heads remain — and then performs one more iteration of the loop; the
memo returned to the caller of execute is the one produced by a later
iteration, not the converged memo itself. -/
theorem C1_fixpoint_converged_step {V : Type} (cfg : Config V)
    (f : Nat → V × QueryRevisions) (own : DatabaseKeyIndex) (rev : Revision)
    (old : Option (Memo V)) (fuel n it : Nat)
    (lastProv slot : Option (Memo V)) (lastMemo : Memo V) (lv : V)
    (hheads : own ∈ (f n).2.cycle_heads)
    (hlast : (match lastProv with
              | some m => some m
              | none => slot) = some lastMemo)
    (hlv : lastMemo.value = some lv)
    (heq : cfg.values_equal (f n).1 lv = true) :
    execute cfg f own rev old (fuel + 1) n it lastProv slot =
      execute cfg f own rev old fuel (n + 1) it lastProv
        (some (Memo.new (some (f n).1) rev
          { (f n).2 with cycle_heads := (f n).2.cycle_heads.erase own
                         cycle_ignore := false })) ∧
    (Memo.new (some (f n).1) rev
      { (f n).2 with cycle_heads := (f n).2.cycle_heads.erase own
                     cycle_ignore := false }).verified_final =
      decide ((f n).2.cycle_heads.erase own = ∅) := by
  refine ⟨?_, rfl⟩
  simp only [execute, if_pos hheads, hlast, hlv, heq, if_true]

/-- Witness for the amended C1: the converged step at the concrete instance
of the counterexample rewrites the slot to the converged memo (which is
final, its only head being the own key) and continues the loop. -/
theorem C1_fixpoint_converged_step_witness :
    execute c1Cfg c1F c1Own 1 none 1 0 0 none (some c1M0) =
      execute c1Cfg c1F c1Own 1 none 0 1 0 none (some c1Converged) ∧
    c1Converged.verified_final = true := by
  have h := C1_fixpoint_converged_step c1Cfg c1F c1Own 1 none 0 0 0 none
    (some c1M0) c1M0 0 (by decide) rfl rfl (by decide)
  refine ⟨h.1, by decide⟩

/-- C2: the executor enforces a finite iteration limit: iteration_count is
a u32 bumped with checked_add, so the limit is U32_MAX = 2 ^ 32 - 1 (a
finite implementation-defined bound; the suggested cap around 200 is not
normative); when the cycle has not converged, recovery says Iterate and
iteration_count sits at the limit, execute panics instead of returning a
value. -/
theorem C2_iteration_overflow {V : Type} (cfg : Config V)
    (f : Nat → V × QueryRevisions) (own : DatabaseKeyIndex) (rev : Revision)
    (old : Option (Memo V)) (fuel n : Nat)
    (lastProv slot : Option (Memo V)) (lastMemo : Memo V) (lv : V)
    (hheads : own ∈ (f n).2.cycle_heads)
    (hlast : (match lastProv with
              | some m => some m
              | none => slot) = some lastMemo)
    (hlv : lastMemo.value = some lv)
    (hne : cfg.values_equal (f n).1 lv = false)
    (hrec : cfg.recover_from_cycle (f n).1 U32_MAX = .Iterate) :
    execute cfg f own rev old (fuel + 1) n U32_MAX lastProv slot =
      .error "fixpoint iteration should converge before u32 overflow" := by
  simp only [execute, if_pos hheads, hlast, hlv, hne, hrec, Bool.false_eq_true,
    if_false]
  exact if_pos trivial

/-- Witness for C2: a configuration that never converges, caught at the
limit. -/
theorem C2_iteration_overflow_witness :
    execute c1Cfg (fun _ => (1, c1RevsH)) c1Own 1 none 1 0 U32_MAX none
      (some c1M0) =
      .error "fixpoint iteration should converge before u32 overflow" :=
  C2_iteration_overflow c1Cfg (fun _ => (1, c1RevsH)) c1Own 1 none 0 0 none
    (some c1M0) c1M0 0 (by decide) rfl rfl (by decide) rfl

/-- C4: backdating. Whenever execute runs with an old memo present whose
value is ov and returns, and the returned value equals ov under the
configured equality, then the published memo keeps the old changed_at and
its durability is the max of the newly computed durability (that of the
final user invocation, witnessed by n2) and the old durability. The
backdate_if_appropriate helper itself is modelled from the spec, its body
not being under src. -/
theorem C4_backdating {V : Type} (cfg : Config V) (f : Nat → V × QueryRevisions)
    (own : DatabaseKeyIndex) (rev : Revision) (o : Memo V) (ov : V) :
    ∀ fuel n it (lastProv slot : Option (Memo V)) (res : ExecuteResult V),
      execute cfg f own rev (some o) fuel n it lastProv slot = .ok (some res) →
      o.value = some ov →
      ∀ v, res.returned.value = some v → cfg.values_equal v ov = true →
      res.returned.revisions.changed_at = o.revisions.changed_at ∧
      ∃ n2, res.returned.revisions.durability =
          Durability.max (f n2).2.durability o.revisions.durability ∧
        res.returned.value = some (f n2).1 := by
  intro fuel
  induction fuel with
  | zero =>
    intro n it lastProv slot res hrun
    exact absurd hrun (by simp [execute])
  | succ fuel ih =>
    intro n it lastProv slot res hrun hov v hv heq
    by_cases hh : own ∈ (f n).2.cycle_heads
    · cases lastProv with
      | some lastMemo =>
        simp only [execute, if_pos hh] at hrun
        cases hlv : lastMemo.value with
        | none => rw [hlv] at hrun; exact absurd hrun (by simp)
        | some lv =>
          rw [hlv] at hrun
          dsimp only at hrun
          by_cases he2 : cfg.values_equal (f n).1 lv = true
          · rw [if_pos he2] at hrun
            exact ih _ _ _ _ _ hrun hov v hv heq
          · rw [if_neg he2] at hrun
            cases hrec : cfg.recover_from_cycle (f n).1 it with
            | Iterate =>
              rw [hrec] at hrun
              by_cases hit : it = U32_MAX
              · rw [if_pos hit] at hrun; exact absurd hrun (by simp)
              · rw [if_neg hit] at hrun
                exact ih _ _ _ _ _ hrun hov v hv heq
            | Fallback fv =>
              rw [hrec] at hrun
              exact ih _ _ _ _ _ hrun hov v hv heq
      | none =>
        cases slot with
        | none => exact absurd hrun (by simp [execute, if_pos hh])
        | some lastMemo =>
          simp only [execute, if_pos hh] at hrun
          cases hlv : lastMemo.value with
          | none => rw [hlv] at hrun; exact absurd hrun (by simp)
          | some lv =>
            rw [hlv] at hrun
            dsimp only at hrun
            by_cases he2 : cfg.values_equal (f n).1 lv = true
            · rw [if_pos he2] at hrun
              exact ih _ _ _ _ _ hrun hov v hv heq
            · rw [if_neg he2] at hrun
              cases hrec : cfg.recover_from_cycle (f n).1 it with
              | Iterate =>
                rw [hrec] at hrun
                by_cases hit : it = U32_MAX
                · rw [if_pos hit] at hrun; exact absurd hrun (by simp)
                · rw [if_neg hit] at hrun
                  exact ih _ _ _ _ _ hrun hov v hv heq
              | Fallback fv =>
                rw [hrec] at hrun
                exact ih _ _ _ _ _ hrun hov v hv heq
    · simp only [execute, if_neg hh] at hrun
      have hres : res =
          { returned := Memo.new (some (f n).1) rev
              (backdate_if_appropriate cfg o (f n).2 (f n).1)
            slot := some (Memo.new (some (f n).1) rev
              (backdate_if_appropriate cfg o (f n).2 (f n).1)) } := by
        have := hrun
        simp only [Except.ok.injEq, Option.some.injEq] at this
        exact this.symm
      subst hres
      have hveq : (f n).1 = v := by
        simpa [Memo.new] using hv
      subst hveq
      refine ⟨?_, n, ?_, ?_⟩ <;>
        simp [Memo.new, backdate_if_appropriate, hov, heq]

/-- Witness for C4: a one-invocation run over an old memo with equal value
backdates changed_at from 9 and takes the max durability. -/
theorem C4_backdating_witness :
    execute c1Cfg (fun _ => (5, c1RevsN)) c1Own 12 (some
      { value := some 5, verified_at := 10, verified_final := true
        revisions :=
          { changed_at := 9, durability := .medium, origin := .Derived []
            cycle_heads := ∅, cycle_ignore := false } }) 1 0 0 none none =
      .ok (some
        { returned := Memo.new (some 5) 12
            { changed_at := 9, durability := .high, origin := .Derived []
              cycle_heads := ∅, cycle_ignore := false }
          slot := some (Memo.new (some 5) 12
            { changed_at := 9, durability := .high, origin := .Derived []
              cycle_heads := ∅, cycle_ignore := false }) }) ∧
    ((Memo.new (some 5) 12
        { changed_at := 9, durability := .high, origin := .Derived []
          cycle_heads := ∅, cycle_ignore := false } : Memo Nat)).revisions.changed_at = 9 ∧
    ∃ n2, (Memo.new (some 5) 12
        { changed_at := 9, durability := .high, origin := .Derived []
          cycle_heads := ∅, cycle_ignore := false } : Memo Nat).revisions.durability =
        Durability.max ((fun (_ : Nat) => ((5 : Nat), c1RevsN)) n2).2.durability .medium ∧
      (Memo.new (some 5) 12
        { changed_at := 9, durability := .high, origin := .Derived []
          cycle_heads := ∅, cycle_ignore := false } : Memo Nat).value =
        some ((fun (_ : Nat) => ((5 : Nat), c1RevsN)) n2).1 := by
  have hrun : execute c1Cfg (fun _ => (5, c1RevsN)) c1Own 12 (some
      { value := some 5, verified_at := 10, verified_final := true
        revisions :=
          { changed_at := 9, durability := .medium, origin := .Derived []
            cycle_heads := ∅, cycle_ignore := false } }) 1 0 0 none none =
      .ok (some
        { returned := Memo.new (some 5) 12
            { changed_at := 9, durability := .high, origin := .Derived []
              cycle_heads := ∅, cycle_ignore := false }
          slot := some (Memo.new (some 5) 12
            { changed_at := 9, durability := .high, origin := .Derived []
              cycle_heads := ∅, cycle_ignore := false }) }) := by rfl
  have h := C4_backdating c1Cfg (fun _ => (5, c1RevsN)) c1Own 12
    { value := some 5, verified_at := 10, verified_final := true
      revisions :=
        { changed_at := 9, durability := .medium, origin := .Derived []
          cycle_heads := ∅, cycle_ignore := false } } 5 1 0 0 none none _
    hrun rfl 5 rfl (by decide)
  exact ⟨hrun, h.1, h.2⟩

/-- Every memo an execute run hands back carries a present value: each
return site publishes Memo::new of some value. Helper for the fetch
claims. -/
theorem execute_returned_value_isSome {V : Type} (cfg : Config V)
    (f : Nat → V × QueryRevisions) (own : DatabaseKeyIndex) (rev : Revision)
    (old : Option (Memo V)) :
    ∀ fuel n it (lastProv slot : Option (Memo V)) (res : ExecuteResult V),
      execute cfg f own rev old fuel n it lastProv slot = .ok (some res) →
      res.returned.value.isSome = true := by
  intro fuel
  induction fuel with
  | zero =>
    intro n it lastProv slot res hrun
    exact absurd hrun (by simp [execute])
  | succ fuel ih =>
    intro n it lastProv slot res hrun
    by_cases hh : own ∈ (f n).2.cycle_heads
    · cases lastProv with
      | some lastMemo =>
        simp only [execute, if_pos hh] at hrun
        cases hlv : lastMemo.value with
        | none => rw [hlv] at hrun; exact absurd hrun (by simp)
        | some lv =>
          rw [hlv] at hrun
          dsimp only at hrun
          by_cases he2 : cfg.values_equal (f n).1 lv = true
          · rw [if_pos he2] at hrun
            exact ih _ _ _ _ _ hrun
          · rw [if_neg he2] at hrun
            cases hrec : cfg.recover_from_cycle (f n).1 it with
            | Iterate =>
              rw [hrec] at hrun
              by_cases hit : it = U32_MAX
              · rw [if_pos hit] at hrun; exact absurd hrun (by simp)
              · rw [if_neg hit] at hrun
                exact ih _ _ _ _ _ hrun
            | Fallback fv =>
              rw [hrec] at hrun
              exact ih _ _ _ _ _ hrun
      | none =>
        cases slot with
        | none => exact absurd hrun (by simp [execute, if_pos hh])
        | some lastMemo =>
          simp only [execute, if_pos hh] at hrun
          cases hlv : lastMemo.value with
          | none => rw [hlv] at hrun; exact absurd hrun (by simp)
          | some lv =>
            rw [hlv] at hrun
            dsimp only at hrun
            by_cases he2 : cfg.values_equal (f n).1 lv = true
            · rw [if_pos he2] at hrun
              exact ih _ _ _ _ _ hrun
            · rw [if_neg he2] at hrun
              cases hrec : cfg.recover_from_cycle (f n).1 it with
              | Iterate =>
                rw [hrec] at hrun
                by_cases hit : it = U32_MAX
                · rw [if_pos hit] at hrun; exact absurd hrun (by simp)
                · rw [if_neg hit] at hrun
                  exact ih _ _ _ _ _ hrun
              | Fallback fv =>
                rw [hrec] at hrun
                exact ih _ _ _ _ _ hrun
    · simp only [execute, if_neg hh] at hrun
      cases old with
      | some o =>
        simp only [Except.ok.injEq, Option.some.injEq] at hrun
        subst hrun
        rfl
      | none =>
        simp only [Except.ok.injEq, Option.some.injEq] at hrun
        subst hrun
        rfl

/-- The memo timestamp invariant: changed_at ≤ verified_at ≤ the current
revision. -/
def MemoInv {V : Type} (current : Revision) (m : Memo V) : Prop :=
  m.revisions.changed_at ≤ m.verified_at ∧ m.verified_at ≤ current

/-- The memo shallow verification hands back differs from the input only in
the verified_final flag and possibly a verified_at refresh to the current
revision; value and revisions are untouched. -/
theorem shallow_verify_memo_memo_spec {V : Type} (zalsa : Zalsa) (m : Memo V)
    (ap : Bool) :
    (shallow_verify_memo zalsa m ap).memo.revisions = m.revisions ∧
    (shallow_verify_memo zalsa m ap).memo.value = m.value ∧
    ((shallow_verify_memo zalsa m ap).memo.verified_at = m.verified_at ∨
     (shallow_verify_memo zalsa m ap).memo.verified_at = zalsa.current_revision) := by
  unfold shallow_verify_memo validate_provisional Memo.mark_as_verified
  dsimp only
  repeat' split
  all_goals simp

/-- Every memo published by an execute run (the returned one and the final
slot content) satisfies the timestamp invariant at the execution revision,
provided the user-produced revisions and the old memo do. -/
theorem execute_memoInv {V : Type} (cfg : Config V)
    (f : Nat → V × QueryRevisions) (own : DatabaseKeyIndex) (rev : Revision)
    (old : Option (Memo V))
    (hf : ∀ k, (f k).2.changed_at ≤ rev)
    (ho : ∀ o, old = some o → o.revisions.changed_at ≤ rev) :
    ∀ fuel n it (lastProv slot : Option (Memo V)) (res : ExecuteResult V),
      execute cfg f own rev old fuel n it lastProv slot = .ok (some res) →
      MemoInv rev res.returned := by
  intro fuel
  induction fuel with
  | zero =>
    intro n it lastProv slot res hrun
    exact absurd hrun (by simp [execute])
  | succ fuel ih =>
    intro n it lastProv slot res hrun
    by_cases hh : own ∈ (f n).2.cycle_heads
    · cases lastProv with
      | some lastMemo =>
        simp only [execute, if_pos hh] at hrun
        cases hlv : lastMemo.value with
        | none => rw [hlv] at hrun; exact absurd hrun (by simp)
        | some lv =>
          rw [hlv] at hrun
          dsimp only at hrun
          by_cases he2 : cfg.values_equal (f n).1 lv = true
          · rw [if_pos he2] at hrun
            exact ih _ _ _ _ _ hrun
          · rw [if_neg he2] at hrun
            cases hrec : cfg.recover_from_cycle (f n).1 it with
            | Iterate =>
              rw [hrec] at hrun
              by_cases hit : it = U32_MAX
              · rw [if_pos hit] at hrun; exact absurd hrun (by simp)
              · rw [if_neg hit] at hrun
                exact ih _ _ _ _ _ hrun
            | Fallback fv =>
              rw [hrec] at hrun
              exact ih _ _ _ _ _ hrun
      | none =>
        cases slot with
        | none => exact absurd hrun (by simp [execute, if_pos hh])
        | some lastMemo =>
          simp only [execute, if_pos hh] at hrun
          cases hlv : lastMemo.value with
          | none => rw [hlv] at hrun; exact absurd hrun (by simp)
          | some lv =>
            rw [hlv] at hrun
            dsimp only at hrun
            by_cases he2 : cfg.values_equal (f n).1 lv = true
            · rw [if_pos he2] at hrun
              exact ih _ _ _ _ _ hrun
            · rw [if_neg he2] at hrun
              cases hrec : cfg.recover_from_cycle (f n).1 it with
              | Iterate =>
                rw [hrec] at hrun
                by_cases hit : it = U32_MAX
                · rw [if_pos hit] at hrun; exact absurd hrun (by simp)
                · rw [if_neg hit] at hrun
                  exact ih _ _ _ _ _ hrun
              | Fallback fv =>
                rw [hrec] at hrun
                exact ih _ _ _ _ _ hrun
    · simp only [execute, if_neg hh] at hrun
      cases old with
      | some o =>
        simp only [Except.ok.injEq, Option.some.injEq] at hrun
        subst hrun
        dsimp only [Memo.new, backdate_if_appropriate]
        constructor
        · cases hov : o.value with
          | none => simp [hov, hf n]
          | some ov =>
            simp only [hov]
            split
            · exact ho o rfl
            · exact hf n
        · exact le_refl rev
      | none =>
        simp only [Except.ok.injEq, Option.some.injEq] at hrun
        subst hrun
        exact ⟨hf n, le_refl rev⟩

/-- C5: the timestamp invariant changed_at ≤ verified_at ≤ current holds
for every memo the modelled operations create or update: Memo::new at the
current revision (for revisions whose changed_at is not in the future),
the fixpoint-initial insertion, value eviction, mark_as_verified at a
revision at least the old current, shallow verification, and every memo an
execute run returns. -/
theorem C5_memo_timestamp_invariant {V : Type} :
    (∀ (v : Option V) (current : Revision) (revs : QueryRevisions),
      revs.changed_at ≤ current → MemoInv current (Memo.new v current revs)) ∧
    (∀ (init : V) (own : DatabaseKeyIndex) (current : Revision),
      MemoInv current (Memo.new (some init) current
        (QueryRevisions.fixpoint_initial own current))) ∧
    (∀ (current : Revision) (m m2 : Memo V), MemoInv current m →
      evict_value_from_memo_for (some m) = some m2 → MemoInv current m2) ∧
    (∀ (current current2 : Revision) (m : Memo V), MemoInv current m →
      current ≤ current2 →
      MemoInv current2 (m.mark_as_verified current2)) ∧
    (∀ (zalsa : Zalsa) (m : Memo V) (ap : Bool),
      MemoInv zalsa.current_revision m →
      MemoInv zalsa.current_revision (shallow_verify_memo zalsa m ap).memo) ∧
    (∀ (cfg : Config V) (f : Nat → V × QueryRevisions)
        (own : DatabaseKeyIndex) (rev : Revision) (old : Option (Memo V))
        fuel n it (lastProv slot : Option (Memo V)) (res : ExecuteResult V),
      (∀ k, (f k).2.changed_at ≤ rev) →
      (∀ o, old = some o → o.revisions.changed_at ≤ rev) →
      execute cfg f own rev old fuel n it lastProv slot = .ok (some res) →
      MemoInv rev res.returned) := by
  refine ⟨?_, ?_, ?_, ?_, ?_, ?_⟩
  · intro v current revs h
    exact ⟨h, le_refl current⟩
  · intro init own current
    exact ⟨le_refl current, le_refl current⟩
  · intro current m m2 hm hev
    cases horig : m.revisions.origin with
    | Derived edges =>
      simp only [evict_value_from_memo_for, horig, Option.some.injEq] at hev
      subst hev
      exact hm
    | _ =>
      simp only [evict_value_from_memo_for, horig, Option.some.injEq] at hev
      subst hev
      exact hm
  · intro current current2 m hm hle
    exact ⟨le_trans hm.1 (le_trans hm.2 hle), le_refl current2⟩
  · intro zalsa m ap hm
    obtain ⟨hrev, hval, hva⟩ := shallow_verify_memo_memo_spec zalsa m ap
    constructor
    · rw [hrev]
      cases hva with
      | inl h => rw [h]; exact hm.1
      | inr h => rw [h]; exact le_trans hm.1 hm.2
    · cases hva with
      | inl h => rw [h]; exact hm.2
      | inr h => rw [h]
  · intro cfg f own rev old fuel n it lastProv slot res hf ho hrun
    exact execute_memoInv cfg f own rev old hf ho fuel n it lastProv slot res hrun

/-- Witness for C5 at concrete instances of each operation. -/
theorem C5_memo_timestamp_invariant_witness :
    MemoInv 3 (Memo.new (some (5 : Nat)) 3 c1RevsN) ∧
    MemoInv 2 (Memo.new (some (0 : Nat)) 2
      (QueryRevisions.fixpoint_initial c1Own 2)) ∧
    MemoInv 3 (Memo.new (none : Option Nat) 3 c1RevsN) ∧
    MemoInv 4 ((Memo.new (some (5 : Nat)) 3 c1RevsN).mark_as_verified 4) := by
  have h := @C5_memo_timestamp_invariant Nat
  refine ⟨h.1 (some 5) 3 c1RevsN (by decide), h.2.1 0 c1Own 2, ?_, ?_⟩
  · have he : evict_value_from_memo_for (some (Memo.new (some (5 : Nat)) 3 c1RevsN)) =
        some (Memo.new (none : Option Nat) 3 c1RevsN) := by rfl
    exact h.2.2.1 3 _ _ (h.1 (some 5) 3 c1RevsN (by decide)) he
  · exact h.2.2.2.1 3 4 _ (h.1 (some 5) 3 c1RevsN (by decide)) (by decide)

/-- C6: for a Panic-strategy query a detected cycle is fatal. A claim that
returns Cycle during fetch panics (no fixpoint initial value exists), a
claim that returns Cycle during validation panics unconditionally, and a
guard dropped while panicking propagates Panicked to the waiters. The
hypothesis says no memo in the slot is a usable own-headed provisional
one; for a Panic-strategy query none can exist, since only the fixpoint
machinery creates memos whose cycle_heads name their own key. -/
theorem C6_panic_strategy_cycle_fatal {V : Type} (cfg : Config V)
    (zalsa : Zalsa) (own : DatabaseKeyIndex) (slot : Option (Memo V))
    (deep : Memo V → VerifyResult) (f : Nat → V × QueryRevisions) (fuel : Nat)
    (onc : Except String (Option VerifyResult))
    (hstrat : cfg.CYCLE_STRATEGY = .Panic)
    (hnoprov : ∀ memo, slot = some memo →
      (memo.value.isSome && decide (own ∈ memo.revisions.cycle_heads) &&
        (shallow_verify_memo zalsa memo true).ok) = false) :
    fetch_cold cfg zalsa own .Cycle slot deep f fuel =
      .error "dependency graph cycle querying; set cycle_fn and cycle_initial to fixpoint iterate" ∧
    maybe_changed_after_cold_claim cfg own .Cycle onc =
      .error "dependency graph cycle validating; set cycle_fn and cycle_initial to fixpoint iterate" ∧
    ClaimGuard.drop_wait_result true = .Panicked := by
  refine ⟨?_, ?_, rfl⟩
  · unfold fetch_cold
    cases slot with
    | none => simp [initial_value, hstrat]
    | some memo =>
      have h := hnoprov memo rfl
      simp only [h, Bool.false_eq_true, if_false]
      simp [initial_value, hstrat]
  · unfold maybe_changed_after_cold_claim
    simp [hstrat]

/-- Witness for C6 with an empty slot. -/
theorem C6_panic_strategy_cycle_fatal_witness :
    fetch_cold
      { values_equal := fun a b => a == b
        recover_from_cycle := fun _ _ => .Iterate
        cycle_initial := 0
        CYCLE_STRATEGY := .Panic }
      c3Zalsa c1Own .Cycle (none : Option (Memo Nat)) (fun _ => .Changed)
      (fun _ => (0, c1RevsN)) 1 =
      .error "dependency graph cycle querying; set cycle_fn and cycle_initial to fixpoint iterate" ∧
    maybe_changed_after_cold_claim
      { values_equal := fun a b => a == b
        recover_from_cycle := fun _ _ => (.Iterate : CycleRecoveryAction Nat)
        cycle_initial := 0
        CYCLE_STRATEGY := .Panic }
      c1Own .Cycle (.ok none) =
      .error "dependency graph cycle validating; set cycle_fn and cycle_initial to fixpoint iterate" ∧
    ClaimGuard.drop_wait_result true = .Panicked := by
  have h := C6_panic_strategy_cycle_fatal
    (V := Nat)
    { values_equal := fun a b => a == b
      recover_from_cycle := fun _ _ => .Iterate
      cycle_initial := 0
      CYCLE_STRATEGY := .Panic }
    c3Zalsa c1Own none (fun _ => .Changed) (fun _ => (0, c1RevsN)) 1 (.ok none)
    rfl (fun memo hm => by cases hm)
  exact h

/-- A memo handed back by the hot path has a present value: the path is
guarded by value.is_some before shallow verification, which never touches
the value. -/
theorem fetch_hot_value_isSome {V : Type} (zalsa : Zalsa)
    (slot : Option (Memo V)) (memo : Memo V)
    (h : fetch_hot zalsa slot = some memo) : memo.value.isSome = true := by
  cases slot with
  | none => simp [fetch_hot] at h
  | some m0 =>
    unfold fetch_hot at h
    dsimp only at h
    by_cases hv : m0.value.isSome = true
    · rw [if_pos hv] at h
      by_cases hok : (shallow_verify_memo zalsa m0 false).ok = true
      · rw [if_pos hok] at h
        have hm : memo = (shallow_verify_memo zalsa m0 false).memo :=
          (Option.some.injEq _ _).mp h.symm
        rw [hm, (shallow_verify_memo_memo_spec zalsa m0 false).2.1]
        exact hv
      · rw [if_neg hok] at h
        exact absurd h (by simp)
    · rw [if_neg hv] at h
      exact absurd h (by simp)

/-- A memo handed back by the cold path has a present value: the Cycle
branch returns an existing provisional only when its value is present or
inserts a freshly built initial-value memo, the Claimed deep-verified
branch is guarded by value.is_some, and execute always publishes a memo
with a present value. -/
theorem fetch_cold_value_isSome {V : Type} (cfg : Config V) (zalsa : Zalsa)
    (own : DatabaseKeyIndex) (claim : ClaimResult) (slot : Option (Memo V))
    (deep : Memo V → VerifyResult) (f : Nat → V × QueryRevisions) (fuel : Nat)
    (memo : Memo V)
    (h : fetch_cold cfg zalsa own claim slot deep f fuel = .ok (some memo)) :
    memo.value.isSome = true := by
  cases claim with
  | Retry => exact absurd h (by simp [fetch_cold])
  | Cycle =>
    unfold fetch_cold at h
    cases slot with
    | some m0 =>
      simp only [] at h
      by_cases hcond : (m0.value.isSome &&
          decide (own ∈ m0.revisions.cycle_heads) &&
          (shallow_verify_memo zalsa m0 true).ok) = true
      · rw [if_pos hcond] at h
        dsimp only at h
        have hm : memo = (shallow_verify_memo zalsa m0 true).memo :=
          (Option.some.injEq _ _).mp ((Except.ok.injEq _ _).mp h).symm
        rw [hm, (shallow_verify_memo_memo_spec zalsa m0 true).2.1]
        exact Bool.and_elim_left (Bool.and_elim_left hcond)
      · rw [if_neg hcond] at h
        dsimp only at h
        cases hiv : initial_value cfg with
        | none => rw [hiv] at h; exact absurd h (by simp)
        | some init =>
          rw [hiv] at h
          dsimp only at h
          have hm : memo = Memo.new (some init) zalsa.current_revision
              (QueryRevisions.fixpoint_initial own zalsa.current_revision) :=
            (Option.some.injEq _ _).mp ((Except.ok.injEq _ _).mp h).symm
          rw [hm]
          rfl
    | none =>
      simp only [] at h
      cases hiv : initial_value cfg with
      | none => rw [hiv] at h; exact absurd h (by simp)
      | some init =>
        rw [hiv] at h
        dsimp only at h
        have hm : memo = Memo.new (some init) zalsa.current_revision
            (QueryRevisions.fixpoint_initial own zalsa.current_revision) :=
          (Option.some.injEq _ _).mp ((Except.ok.injEq _ _).mp h).symm
        rw [hm]
        rfl
  | Claimed =>
    unfold fetch_cold at h
    have hrun : ∀ (h2 : (execute cfg f own zalsa.current_revision slot fuel 0 0
          none slot).map (fun r => r.map (fun e => e.returned)) = .ok (some memo)),
        memo.value.isSome = true := by
      intro h2
      cases hex : execute cfg f own zalsa.current_revision slot fuel 0 0 none slot with
      | error e => rw [hex] at h2; exact absurd h2 (by simp [Except.map])
      | ok o =>
        rw [hex] at h2
        cases o with
        | none => exact absurd h2 (by simp [Except.map])
        | some res =>
          have hm : memo = res.returned := by
            simp only [Except.map, Option.map, Except.ok.injEq,
              Option.some.injEq] at h2
            exact h2.symm
          rw [hm]
          exact execute_returned_value_isSome cfg f own zalsa.current_revision
            slot fuel 0 0 none slot res hex
    cases slot with
    | none =>
      simp only [] at h
      exact hrun h
    | some old_memo =>
      simp only [] at h
      by_cases hv : old_memo.value.isSome = true
      · rw [if_pos hv] at h
        cases hdeep : deep old_memo with
        | Changed => rw [hdeep] at h; exact hrun h
        | Unchanged cycle_heads =>
          rw [hdeep] at h
          dsimp only at h
          by_cases hch : cycle_heads = ∅
          · rw [if_pos hch] at h
            have hm : memo = old_memo :=
              (Option.some.injEq _ _).mp ((Except.ok.injEq _ _).mp h).symm
            rw [hm]
            exact hv
          · rw [if_neg hch] at h
            exact hrun h
      · rw [if_neg hv] at h
        exact hrun h

/-- C9: every memo refresh_memo hands to fetch has a present value, so the
value unwrap in fetch can never panic: the hot path requires a present
value before shallow verification, the cold path returns only guarded
existing memos, freshly built initial-value memos, or memos published by
execute, all with values present; the provisional head walk returns the
same memo it inspected. -/
theorem C9_refresh_memo_value_present {V : Type} (cfg : Config V)
    (zalsa : Zalsa) (own : DatabaseKeyIndex)
    (attempts : Nat → FetchAttempt V) :
    ∀ fuel k (memo : Memo V),
      refresh_memo cfg zalsa own attempts fuel k = .ok (some memo) →
      memo.value.isSome = true := by
  intro fuel
  induction fuel with
  | zero =>
    intro k memo h
    exact absurd h (by simp [refresh_memo])
  | succ fuel ih =>
    intro k memo h
    unfold refresh_memo at h
    dsimp only at h
    cases hhot : fetch_hot zalsa (attempts k).hot_slot with
    | some m =>
      rw [hhot] at h
      dsimp only at h
      by_cases hprov : m.may_be_provisional = true
      · rw [if_pos hprov] at h
        simp only [Memo.cycle_heads, hprov, if_true] at h
        by_cases hex : ∃ head ∈ m.revisions.cycle_heads, head ≠ own ∧
            zalsa.is_verified_final head = false ∧
            (attempts k).wait_for head = true
        · rw [if_pos hex] at h
          exact ih _ _ h
        · rw [if_neg hex] at h
          have hm : memo = m :=
            (Option.some.injEq _ _).mp ((Except.ok.injEq _ _).mp h).symm
          rw [hm]
          exact fetch_hot_value_isSome zalsa (attempts k).hot_slot m hhot
      · rw [if_neg hprov] at h
        have hm : memo = m :=
          (Option.some.injEq _ _).mp ((Except.ok.injEq _ _).mp h).symm
        rw [hm]
        exact fetch_hot_value_isSome zalsa (attempts k).hot_slot m hhot
    | none =>
      rw [hhot] at h
      dsimp only at h
      cases hcold : fetch_cold cfg zalsa own (attempts k).claim
          (attempts k).cold_slot (attempts k).deep_verify
          (attempts k).user_execute (attempts k).exec_fuel with
      | error e => rw [hcold] at h; exact absurd h (by simp)
      | ok o =>
        rw [hcold] at h
        cases o with
        | none =>
          dsimp only at h
          exact ih _ _ h
        | some m =>
          dsimp only at h
          by_cases hprov : m.may_be_provisional = true
          · rw [if_pos hprov] at h
            simp only [Memo.cycle_heads, hprov, if_true] at h
            by_cases hex : ∃ head ∈ m.revisions.cycle_heads, head ≠ own ∧
                zalsa.is_verified_final head = false ∧
                (attempts k).wait_for head = true
            · rw [if_pos hex] at h
              exact ih _ _ h
            · rw [if_neg hex] at h
              have hm : memo = m :=
                (Option.some.injEq _ _).mp ((Except.ok.injEq _ _).mp h).symm
              rw [hm]
              exact fetch_cold_value_isSome cfg zalsa own (attempts k).claim
                (attempts k).cold_slot (attempts k).deep_verify
                (attempts k).user_execute (attempts k).exec_fuel m hcold
          · rw [if_neg hprov] at h
            have hm : memo = m :=
              (Option.some.injEq _ _).mp ((Except.ok.injEq _ _).mp h).symm
            rw [hm]
            exact fetch_cold_value_isSome cfg zalsa own (attempts k).claim
              (attempts k).cold_slot (attempts k).deep_verify
              (attempts k).user_execute (attempts k).exec_fuel m hcold

/-- Witness for C9: one attempt whose hot path hits a verified memo. -/
theorem C9_refresh_memo_value_present_witness :
    (refresh_memo c1Cfg c3Zalsa c1Own (fun _ =>
      { hot_slot := some (Memo.new (some 5) 1 c1RevsN)
        claim := .Retry
        cold_slot := none
        deep_verify := fun _ => .Changed
        user_execute := fun _ => (0, c1RevsN)
        exec_fuel := 0
        wait_for := fun _ => false }) 1 0 =
      .ok (some (Memo.new (some (5 : Nat)) 1 c1RevsN))) ∧
    (Memo.new (some (5 : Nat)) 1 c1RevsN).value.isSome = true := by
  have hrun : refresh_memo c1Cfg c3Zalsa c1Own (fun _ =>
      { hot_slot := some (Memo.new (some 5) 1 c1RevsN)
        claim := .Retry
        cold_slot := none
        deep_verify := fun _ => .Changed
        user_execute := fun _ => (0, c1RevsN)
        exec_fuel := 0
        wait_for := fun _ => false }) 1 0 =
      .ok (some (Memo.new (some (5 : Nat)) 1 c1RevsN)) := by rfl
  exact ⟨hrun, C9_refresh_memo_value_present c1Cfg c3Zalsa c1Own _ 1 0 _ hrun⟩

end Salsa
